import Mathlib

/-!
Shallow embedding of the heuristic grid-to-schedule extraction engine of the
timetable-editor-and-generator repository (`src/components/TimetableImporter.tsx`
and the sibling importer revision that adds the L-T-P-S cross-check), together
with theorems settling the frozen claims about it.

The source is TypeScript operating on JavaScript strings.  Strings are embedded
as Lean `String` / `List Char`; the specific regular expressions of the source
are embedded as explicit scanning functions with JS leftmost-match semantics.
Scanners that re-scan a suffix after a match use an explicit fuel argument
(`length + 1` fuel, always sufficient) to make totality obvious.
-/

set_option maxRecDepth 10000

/-- JS `\s` for the character repertoire of this code base: ASCII whitespace
plus NBSP (the grids are ASCII apart from two mojibake sequences). -/
def jsWs (c : Char) : Bool :=
  c = ' ' || c = '\t' || c = '\n' || c = '\r' ||
  c = Char.ofNat 11 || c = Char.ofNat 12 || c = Char.ofNat 160

def isAsciiAlnum (c : Char) : Bool := c.isAlpha || c.isDigit

def ofChars (l : List Char) : String := String.mk l

/-- `needle` is a literal prefix of `hay`. -/
def startsWithL : List Char → List Char → Bool
  | [], _ => true
  | _ :: _, [] => false
  | a :: t, b :: r => a = b && startsWithL t r

/-- Case-insensitive (ASCII) literal-prefix test, for `gi`-flagged literal
patterns. -/
def startsWithCI : List Char → List Char → Bool
  | [], _ => true
  | _ :: _, [] => false
  | a :: t, b :: r => a.toUpper = b.toUpper && startsWithCI t r

/-- JS `String.prototype.trim` (both ends, `\s`). -/
def trimL (l : List Char) : List Char :=
  ((l.dropWhile jsWs).reverse.dropWhile jsWs).reverse

def trimS (s : String) : String := ofChars (trimL s.data)

def toUpperStr (s : String) : String := ofChars (s.data.map Char.toUpper)

def toLowerStr (s : String) : String := ofChars (s.data.map Char.toLower)

/-- JS `str.replace(needle, repl)` with a plain-string `needle`: replaces the
first occurrence only. -/
def replaceFirstSub : List Char → List Char → List Char → List Char
  | [], _, _ => []
  | c :: rest, needle, repl =>
    if startsWithL needle (c :: rest) then repl ++ (c :: rest).drop needle.length
    else c :: replaceFirstSub rest needle repl

def replaceFirstSubStr (s needle repl : String) : String :=
  ofChars (replaceFirstSub s.data needle.data repl.data)

/-- Fueled global literal replacement (JS `replace(/needle/g, repl)` for a
literal needle); scanning resumes after each replacement. -/
def replaceAllSeqF : Nat → List Char → List Char → List Char → List Char
  | 0, l, _, _ => l
  | _ + 1, [], _, _ => []
  | n + 1, c :: rest, needle, repl =>
    if startsWithL needle (c :: rest) then
      repl ++ replaceAllSeqF n ((c :: rest).drop needle.length) needle repl
    else c :: replaceAllSeqF n rest needle repl

def replaceAllSeq (l needle repl : List Char) : List Char :=
  replaceAllSeqF (l.length + 1) l needle repl

/-- Fueled global case-insensitive literal deletion
(JS `replace(new RegExp(k, 'gi'), '')` for the keyword literals). -/
def removeAllCIF : Nat → List Char → List Char → List Char
  | 0, l, _ => l
  | _ + 1, [], _ => []
  | n + 1, c :: rest, needle =>
    if needle ≠ [] && startsWithCI needle (c :: rest) then
      removeAllCIF n ((c :: rest).drop needle.length) needle
    else c :: removeAllCIF n rest needle

def removeAllCI (l needle : List Char) : List Char :=
  removeAllCIF (l.length + 1) l needle

/-- Whitespace-run collapse, JS `replace(/\s+/g, ' ')`.  The flag records
whether the previous character was whitespace already collapsed. -/
def collapseWsGo : Bool → List Char → List Char
  | _, [] => []
  | prevWs, c :: rest =>
    if jsWs c then
      if prevWs then collapseWsGo true rest else ' ' :: collapseWsGo true rest
    else c :: collapseWsGo false rest

def collapseWs (l : List Char) : List Char := collapseWsGo false l

/-- Split on a single separator character (JS `split(':')` and the like). -/
def splitCharGo (sep : Char) (cur : List Char) : List Char → List (List Char)
  | [] => [cur.reverse]
  | c :: rest =>
    if c = sep then cur.reverse :: splitCharGo sep [] rest
    else splitCharGo sep (c :: cur) rest

def splitChar (l : List Char) (sep : Char) : List (List Char) := splitCharGo sep [] l

/-- Split on `/[,&]/` (used for faculty section lists). -/
def splitCommaAmpGo (cur : List Char) : List Char → List (List Char)
  | [] => [cur.reverse]
  | c :: rest =>
    if c = ',' || c = '&' then cur.reverse :: splitCommaAmpGo [] rest
    else splitCommaAmpGo (c :: cur) rest

def splitCommaAmp (l : List Char) : List (List Char) := splitCommaAmpGo [] l

/-- Split on `/\r?\n/` (cell lines). -/
def splitLinesGo (cur : List Char) : List Char → List (List Char)
  | [] => [cur.reverse]
  | '\r' :: '\n' :: rest => cur.reverse :: splitLinesGo [] rest
  | '\n' :: rest => cur.reverse :: splitLinesGo [] rest
  | c :: rest => splitLinesGo (c :: cur) rest

def splitLinesJs (l : List Char) : List (List Char) := splitLinesGo [] l

/-- Substring containment (JS `includes`). -/
def containsSubF : Nat → List Char → List Char → Bool
  | 0, _, _ => false
  | _ + 1, [], needle => startsWithL needle []
  | n + 1, c :: rest, needle =>
    startsWithL needle (c :: rest) || containsSubF n rest needle

def containsSub (hay needle : List Char) : Bool :=
  containsSubF (hay.length + 1) hay needle

/-- JS `parseInt` on the digit-led strings this code feeds it: value of the
leading digit run, none when there is no leading digit (`NaN`). -/
def parseNatChars (l : List Char) : Option Nat :=
  let ds := l.takeWhile Char.isDigit
  if ds = [] then none
  else some (ds.foldl (fun n c => n * 10 + (c.toNat - 48)) 0)

/-- Generic leftmost-match regex search: try the pattern matcher at each
position left to right (fueled; fuel `length + 1` visits every position). -/
def searchAtF (f : List Char → Option α) : Nat → List Char → Option α
  | 0, _ => none
  | _ + 1, [] => f []
  | n + 1, c :: t =>
    match f (c :: t) with
    | some x => some x
    | none => searchAtF f n t

def searchAt (f : List Char → Option α) (l : List Char) : Option α :=
  searchAtF f (l.length + 1) l

/-- Truthy-or for JS `a || b` where `a` is a possibly-absent string property. -/
def truthyOr (x : Option String) (d : String) : String :=
  match x with
  | some s => if s = "" then d else s
  | none => d

/-- JS `a || b` on strings. -/
def jsOr (a b : String) : String := if a = "" then b else a

/-- JS `a || b` where both are possibly-undefined ids (the ids are non-empty
uuid strings in the store, so falsiness coincides with undefined). -/
def jsOrOpt (a b : Option Nat) : Option Nat :=
  match a with
  | some x => some x
  | none => b

/-- Association-list lookup (JS object property read). -/
def lookupA : List (String × α) → String → Option α
  | [], _ => none
  | (k0, v0) :: t, k => if k0 = k then some v0 else lookupA t k

/-- Association-list write (JS object property assignment: overwrite in place,
else append; insertion order preserved). -/
def insertA : List (String × α) → String → α → List (String × α)
  | [], k, v => [(k, v)]
  | (k0, v0) :: t, k, v =>
    if k0 = k then (k0, v) :: t else (k0, v0) :: insertA t k v

/-- Enumerate with indices starting at `n` (models `forEach` index and the
`for (let r = ...)` loops). -/
def withIdx : Nat → List α → List (Nat × α)
  | _, [] => []
  | n, a :: t => (n, a) :: withIdx (n + 1) t

/-! ## Data model (`TimetableImporter.tsx` constants and interfaces) -/

def DAYS : List String := ["MON", "TUE", "WED", "THU", "FRI"]

def IGNORE_EXACT : List String :=
  ["LUNCH", "BREAK", "RECESS", "TEA", "TIME TABLE", "DEPARTMENT"]

def IGNORE_KEYWORDS : List String :=
  ["BASKET", "MDM", "HSMC", "OPEN ELECTIVE", "PROGRAM ELECTIVE", "MINOR", "MINORS"]

/-- One entry of `colToTime`; the source object is `{start, end}` (`end` is a
Lean keyword, embedded as `endT`). -/
structure TimeRange where
  start : String
  endT : String
deriving DecidableEq, Repr

inductive SlotType
  | Lecture
  | Tutorial
  | Practical
deriving DecidableEq, Repr

/-- One merged rectangle of `sheet['!merges']`: `{s: {r, c}, e: {r, c}}`. -/
structure MergeSpan where
  sr : Nat
  sc : Nat
  er : Nat
  ec : Nat
deriving DecidableEq, Repr

/-- `ParsedSlot` of the source (`section` is a Lean keyword, embedded as
`secName`).  `isMinor` is optional-chained in the source, hence `Option`. -/
structure ParsedSlot where
  day : String
  timeStart : String
  timeEnd : String
  subjectCode : String
  type : SlotType
  secName : String
  room : String
  facultyName : String
  rawString : String
  isMinor : Option Bool
deriving DecidableEq, Repr

inductive DebugStatus
  | Parsed
  | Info
  | Failed
deriving DecidableEq, Repr

/-- `DebugRow` of the source. -/
structure DebugRow where
  rowNum : Nat
  rawText : String
  status : DebugStatus
  reason : Option String
deriving DecidableEq, Repr

/-! ## Helper functions of the source -/

/-- `str.replace(/[^a-zA-Z0-9]/g, '').toUpperCase()`. -/
def normalizeIgnore (s : String) : String :=
  ofChars ((s.data.filter isAsciiAlnum).map Char.toUpper)

/-- `sanitize`: mojibake repair (the source file literally contains the
mojibake sequences U+2013 U+00B0 → `C` and U+201A U+00C4 U+00EC → `-`),
whitespace collapse, trim.  `null`/`undefined` cells are modeled as `""` by
the caller. -/
def sanitize (val : String) : String :=
  let a := replaceAllSeq val.data ['–', '°'] ['C']
  let b := replaceAllSeq a ['‚', 'Ä', 'ì'] ['-']
  ofChars (trimL (collapseWs b))

/-- First match of `/\s*-\s*/` replaced by `-` (non-global `replace`). -/
def nrFirstDash : List Char → List Char
  | [] => []
  | c :: rest =>
    let l := c :: rest
    let ws := l.takeWhile jsWs
    match l.drop ws.length with
    | '-' :: r2 =>
      let ws2 := r2.takeWhile jsWs
      '-' :: r2.drop ws2.length
    | _ => c :: nrFirstDash rest

/-- `replace(/\s+/g, '-')`: every whitespace run becomes one dash. -/
def wsToDashGo : Bool → List Char → List Char
  | _, [] => []
  | prevWs, c :: rest =>
    if jsWs c then
      if prevWs then wsToDashGo true rest else '-' :: wsToDashGo true rest
    else c :: wsToDashGo false rest

/-- First match of `/([A-Z]+)(\d+)/` rewritten to `$1-$2` (fueled scan; a
failed attempt resumes after the inspected letter run, which is equivalent to
the JS one-position advance because shorter runs fail on the same character). -/
def ldDashF : Nat → List Char → List Char
  | 0, l => l
  | _ + 1, [] => []
  | n + 1, c :: rest =>
    if c.isUpper then
      let run := (c :: rest).takeWhile Char.isUpper
      let r1 := (c :: rest).drop run.length
      match r1 with
      | d :: _ => if d.isDigit then run ++ '-' :: r1 else run ++ ldDashF n r1
      | [] => run
    else c :: ldDashF n rest

/-- `normalizeRoom` of the source. -/
def normalizeRoom (val : String) : String :=
  if val = "" ∨ val = "TBA" then "TBA"
  else
    let a := nrFirstDash val.data
    let b := wsToDashGo false a
    let u := b.map Char.toUpper
    ofChars (ldDashF (u.length + 1) u)

/-- `to24Hour`: hours 1–7 are shifted to PM; note the output hour is rendered
unpadded (`parseInt('08')` is `8`, template-rendered as `8`). -/
def to24Hour (timeStr : String) : String :=
  if timeStr = "" then ""
  else
    let parts := splitChar timeStr.data ':'
    let hStr := parts.headD []
    let mStr := match parts.get? 1 with
      | some m => ofChars m
      | none => "undefined"
    match parseNatChars hStr with
    | some h => toString (if 1 ≤ h ∧ h ≤ 7 then h + 12 else h) ++ ":" ++ mStr
    | none => "NaN:" ++ mStr

def pad2 (m : Nat) : String := if m < 10 then "0" ++ toString m else toString m

/-- `addTwoHours` (`Number` on the digit parts this code feeds it). -/
def addTwoHours (timeStr : String) : String :=
  if timeStr = "" then ""
  else
    let parts := splitChar timeStr.data ':'
    let h := (parseNatChars (parts.headD [])).getD 0
    let m := (parseNatChars ((parts.get? 1).getD [])).getD 0
    toString (h + 2) ++ ":" ++ pad2 m

def digitsVal (l : List Char) : Nat :=
  l.foldl (fun n c => n * 10 + (c.toNat - 48)) 0

/-- JS `Number(...)` restricted to the plain decimal literals an Excel time
serial can be (the argument reaches this branch only when it contains neither
`:` nor `-`; exponent/hex forms do not occur in this data). `none` is `NaN`. -/
def jsNumberQ (l : List Char) : Option ℚ :=
  let t := trimL l
  if t = [] then some 0
  else
    let l1 := match t with
      | '+' :: r => r
      | _ => t
    let ip := l1.takeWhile Char.isDigit
    let r1 := l1.drop ip.length
    match r1 with
    | [] => if ip = [] then none else some (digitsVal ip)
    | '.' :: r2 =>
      let fp := r2.takeWhile Char.isDigit
      if r2.drop fp.length ≠ [] then none
      else if ip = [] ∧ fp = [] then none
      else some ((digitsVal ip : ℚ) + (digitsVal fp : ℚ) / (10 ^ fp.length : ℚ))
    | _ => none

/-- JS `Math.round` (the serials are non-negative here). -/
def jsRound (q : ℚ) : ℤ := ⌊q + 1 / 2⌋

/-- `formatExcelTime`: strings containing `:` or `-` get their first `.`
turned into `:`; otherwise numeric serials become `h:mm`. -/
def formatExcelTime (val : String) : String :=
  let sVal := ofChars (trimL val.data)
  if sVal = "" then ""
  else if sVal.data.contains ':' ∨ sVal.data.contains '-' then
    ofChars (replaceFirstSub sVal.data ['.'] [':'])
  else
    match jsNumberQ val.data with
    | some q =>
      let totalMinutes := (jsRound (q * 24 * 60)).toNat
      toString (totalMinutes / 60) ++ ":" ++ pad2 (totalMinutes % 60)
    | none => sVal

/-! ## Time axis detection (header regex of `processExcelData`) -/

def isTimeSep (c : Char) : Bool := c = ':' || c = '.'

/-- `\d{1,2}[:.]\d{2}` at the head of the input (greedy two digits first,
with the JS backtrack to one digit), returning (token, rest). -/
def tryTimeTok : List Char → Option (List Char × List Char)
  | a :: b :: c :: d :: e :: rest =>
    if a.isDigit && b.isDigit && isTimeSep c && d.isDigit && e.isDigit then
      some ([a, b, c, d, e], rest)
    else if a.isDigit && isTimeSep b && c.isDigit && d.isDigit then
      some ([a, b, c, d], e :: rest)
    else none
  | [a, b, c, d] =>
    if a.isDigit && isTimeSep b && c.isDigit && d.isDigit then some ([a, b, c, d], [])
    else none
  | _ => none

def isDashTO (c : Char) : Bool := c = '-' || c.toUpper = 'T' || c.toUpper = 'O'

/-- `/(\d{1,2}[:.]\d{2})\s*[-to]+\s*(\d{1,2}[:.]\d{2})/i` at the head of the
input; the involved character classes are disjoint, so greedy scanning needs
no backtracking. -/
def tryTimeRange (l : List Char) : Option (List Char × List Char) :=
  match tryTimeTok l with
  | none => none
  | some (t1, r1) =>
    let r2 := r1.dropWhile jsWs
    let dash := r2.takeWhile isDashTO
    if dash = [] then none
    else
      let r4 := (r2.drop dash.length).dropWhile jsWs
      match tryTimeTok r4 with
      | none => none
      | some (t2, _) => some (t1, t2)

/-- One header cell of the time row: `formatExcelTime`, the range regex, the
12→24 conversion, and the `if (start && end)` guard. -/
def parseTimeCell (cell : String) : Option TimeRange :=
  let t := formatExcelTime cell
  match searchAt tryTimeRange t.data with
  | none => none
  | some (t1, t2) =>
    let s := to24Hour (ofChars (replaceFirstSub t1 ['.'] [':']))
    let e := to24Hour (ofChars (replaceFirstSub t2 ['.'] [':']))
    if s ≠ "" ∧ e ≠ "" then some ⟨s, e⟩ else none

/-- The `colToTime` map built from the designated header row (`forEach` over
the cells in column order). -/
def detectTimeAxis (headerRow : List String) : List (Nat × TimeRange) :=
  (withIdx 0 headerRow).filterMap fun p => (parseTimeCell p.2).map fun tr => (p.1, tr)

def lookupCol (l : List (Nat × TimeRange)) (i : Nat) : Option TimeRange :=
  (l.find? fun p => p.1 == i).map (·.2)

/-! ## Merge-span resolution -/

/-- `merges.find(m => m.s.r === r && m.s.c === c)`. -/
def mergeFind (merges : List MergeSpan) (r c : Nat) : Option MergeSpan :=
  merges.find? fun m => m.sr == r && m.sc == c

/-- The end-time logic of the grid loop: a merge starting at the cell takes the
end of the time column at the merge's right edge when that column is a time
column; otherwise the column's own end stands; without a merge a Practical
defaults to start + 2 hours. -/
def resolveEnd (merges : List MergeSpan) (r c : Nat) (colToTime : List (Nat × TimeRange))
    (tr : TimeRange) (ty : SlotType) : String :=
  match mergeFind merges r c with
  | some m =>
    match lookupCol colToTime m.ec with
    | some tc => tc.endT
    | none => tr.endT
  | none => if ty = SlotType.Practical then addTwoHours tr.start else tr.endT

/-! ## The heuristic slot parser -/

inductive ParseOutcome
  | skipped (reason : String)
  | ok (subject : String) (ty : SlotType) (secName : String) (room : String)
deriving DecidableEq, Repr

/-- `/\((L|T|P)\)/i` at the head of the input, returning (match, letter). -/
def tryTypeTag : List Char → Option (List Char × Char)
  | '(' :: x :: ')' :: _ =>
    if x.toUpper = 'L' || x.toUpper = 'T' || x.toUpper = 'P' then
      some (['(', x, ')'], x)
    else none
  | _ => none

def typeOf (c : Char) : SlotType :=
  if c.toUpper = 'T' then SlotType.Tutorial
  else if c.toUpper = 'P' then SlotType.Practical
  else SlotType.Lecture

/-- `/\(((?:CC[1-3]|LT)\s*[-]?\s*\d{4})\)/i` at the head of the input,
returning (match, capture group). -/
def tryRoom1 : List Char → Option (List Char × List Char)
  | '(' :: rest =>
    (match rest with
    | a :: b :: rest2 =>
      let pre? : Option (List Char × List Char) :=
        if a.toUpper = 'C' && b.toUpper = 'C' then
          match rest2 with
          | d :: rest3 =>
            if d = '1' || d = '2' || d = '3' then some ([a, b, d], rest3) else none
          | [] => none
        else if a.toUpper = 'L' && b.toUpper = 'T' then some ([a, b], rest2)
        else none
      match pre? with
      | none => none
      | some (pre, rem) =>
        let ws1 := rem.takeWhile jsWs
        let rem1 := rem.drop ws1.length
        let dashRem : List Char × List Char :=
          match rem1 with
          | '-' :: t => (['-'], t)
          | _ => ([], rem1)
        let ws2 := dashRem.2.takeWhile jsWs
        match dashRem.2.drop ws2.length with
        | d1 :: d2 :: d3 :: d4 :: ')' :: _ =>
          if d1.isDigit && d2.isDigit && d3.isDigit && d4.isDigit then
            let grp := pre ++ ws1 ++ dashRem.1 ++ ws2 ++ [d1, d2, d3, d4]
            some ('(' :: grp ++ [')'], grp)
          else none
        | _ => none
    | _ => none)
  | _ => none

def isRoomChar (c : Char) : Bool := c.isUpper || c.isDigit || jsWs c || c = '-'

/-- `/\(([A-Z0-9\s-]{3,})\)$/` at the head of the input (the `$` forces the
closing parenthesis to end the string), returning (match, capture group). -/
def tryRoom2 : List Char → Option (List Char × List Char)
  | '(' :: rest =>
    let run := rest.takeWhile isRoomChar
    if run.length ≥ 3 then
      match rest.drop run.length with
      | [')'] => some ('(' :: run ++ [')'], run)
      | _ => none
    else none
  | _ => none

/-- Case-insensitive literal prefix strip, returning the actually matched
characters and the rest. -/
def stripCI : List Char → List Char → Option (List Char × List Char)
  | [], l => some ([], l)
  | _ :: _, [] => none
  | p :: ps, c :: cs =>
    if p.toUpper = c.toUpper then
      match stripCI ps cs with
      | some (m, rest) => some (c :: m, rest)
      | none => none
    else none

def isSecChar (c : Char) : Bool := c.isAlpha || c.isDigit || c = '-' || c = '/'

/-- `/(?:Sec|Group)\.?\s*([A-Z0-9-\/]{1,5})/i` at the head of the input,
returning (match, capture group). -/
def trySec (l : List Char) : Option (List Char × List Char) :=
  let m? : Option (List Char × List Char) :=
    match stripCI "Sec".data l with
    | some x => some x
    | none => stripCI "Group".data l
  match m? with
  | none => none
  | some (pre, r1) =>
    let dotR : List Char × List Char :=
      match r1 with
      | '.' :: t => (['.'], t)
      | _ => ([], r1)
    let ws := dotR.2.takeWhile jsWs
    let r3 := dotR.2.drop ws.length
    let tok := (r3.takeWhile isSecChar).take 5
    if tok = [] then none
    else some (pre ++ dotR.1 ++ ws ++ tok, tok)

/-- Characters of the `[-‚Äì]` class of the subject-cleanup regex (the source
file contains the dash plus the three mojibake characters verbatim). -/
def isSubjDash (c : Char) : Bool :=
  c = '-' || c = '‚' || c = 'Ä' || c = 'ì'

/-- Global `/\s+[-‚Äì]\s+/g → ' '` (fueled JS scan). -/
def dashSpaceF : Nat → List Char → List Char
  | 0, l => l
  | _ + 1, [] => []
  | n + 1, c :: rest =>
    let l := c :: rest
    let ws1 := l.takeWhile jsWs
    if ws1 ≠ [] then
      match l.drop ws1.length with
      | d :: r2 =>
        if isSubjDash d then
          let ws2 := r2.takeWhile jsWs
          if ws2 ≠ [] then ' ' :: dashSpaceF n (r2.drop ws2.length)
          else c :: dashSpaceF n rest
        else c :: dashSpaceF n rest
      | [] => c :: dashSpaceF n rest
    else c :: dashSpaceF n rest

def dashSpaceAll (l : List Char) : List Char := dashSpaceF (l.length + 1) l

/-- `parseSlotHeuristically`: exact-ignore check, then the order-dependent
destructive pipeline type → room → section → residual subject.  The source's
`!subject || subject.length < 2` collapses to the length test. -/
def parseSlotHeuristically (rawText : String) : ParseOutcome :=
  let text0 := ofChars (trimL rawText.data)
  let cleanText := normalizeIgnore text0
  if IGNORE_EXACT.any fun ig => normalizeIgnore ig = cleanText then
    ParseOutcome.skipped ("Ignored Garbage: " ++ text0)
  else
    let tyText : SlotType × List Char :=
      match searchAt tryTypeTag text0.data with
      | some (m, x) => (typeOf x, replaceFirstSub text0.data m [' '])
      | none => (SlotType.Lecture, text0.data)
    let text1 := tyText.2
    let roomM : Option (List Char × List Char) :=
      match searchAt tryRoom1 text1 with
      | some r => some r
      | none => searchAt tryRoom2 text1
    let roomText : String × List Char :=
      match roomM with
      | some (m, grp) => (normalizeRoom (ofChars grp), replaceFirstSub text1 m [' '])
      | none => ("TBA", text1)
    let text2 := roomText.2
    let secText : String × List Char :=
      match searchAt trySec text2 with
      | some (m, grp) => ("Sec " ++ ofChars grp, replaceFirstSub text2 m [' '])
      | none => ("All", text2)
    let text3 := secText.2
    let sub1 := trimL (dashSpaceAll text3)
    let sub2 := trimL (sub1.filter fun c => !(c == '(' || c == ')'))
    if sub2.length < 2 then ParseOutcome.skipped "Subject empty after cleanup"
    else ParseOutcome.ok (ofChars sub2) tyText.1 secText.1 roomText.1

/-! ## Metadata block locator & parser -/

def TIME_ROW_INDEX : Nat := 1

/-- `row[i]` with `sheet_to_json`'s `defval: ''` (missing cells read `''`). -/
def getCell (row : List String) (i : Nat) : String := (row.get? i).getD ""

def joinWithSpace : List String → List Char
  | [] => []
  | [s] => s.data
  | s :: rest => s.data ++ ' ' :: joinWithSpace rest

/-- `row.map(c => String(c).toLowerCase()).join(' ')`. -/
def joinLower (row : List String) : List Char := joinWithSpace (row.map toLowerStr)

/-- `metadataStartRow` (`none` is the source's `-1`) plus the three resolved
column indices, with the source's default indices 0 / 2 / 3. -/
structure MetaCols where
  mdRow : Option Nat
  codeCol : Nat
  nameCol : Nat
  facCol : Nat
deriving DecidableEq, Repr

/-- The metadata-header scan: `forEach` over all rows, so a later matching row
overwrites an earlier one; within a matching row each header cell updates its
column index. -/
def detectMeta (rows : List (List String)) : MetaCols :=
  (withIdx 0 rows).foldl
    (fun st p =>
      let rowStr := joinLower p.2
      if containsSub rowStr "course code".data ∧ containsSub rowStr "faculties".data then
        let st1 : MetaCols := ⟨some p.1, st.codeCol, st.nameCol, st.facCol⟩
        (withIdx 0 p.2).foldl
          (fun s2 q =>
            let cStr := (toLowerStr q.2).data
            let c1 := if containsSub cStr "course code".data then q.1 else s2.codeCol
            let c2 := if containsSub cStr "course name".data then q.1 else s2.nameCol
            let c3 :=
              if containsSub cStr "faculties".data ∨ containsSub cStr "faculty".data then q.1
              else s2.facCol
            ⟨s2.mdRow, c1, c2, c3⟩)
          st1
      else st)
    ⟨none, 0, 2, 3⟩

/-- The per-subject instructor object, as one association list whose `default`
key is the source's `profs.default` (initialised to the `Unknown` sentinel). -/
abbrev FacultyInfo := List (String × String)

/-- `/([^(]+)\(([^)]+)\)/` at the head of the input: a non-empty run of
non-`(` characters, `(`, a non-empty run of non-`)` characters, `)`.  Greedy
runs cannot backtrack usefully here, so the maximal runs decide the match. -/
def tryNameSec (l : List Char) : Option (List Char × List Char) :=
  let r1 := l.takeWhile fun c => c != '('
  if r1 = [] then none
  else
    match l.drop r1.length with
    | _ :: tl =>
      let r2 := tl.takeWhile fun c => c != ')'
      if r2 = [] then none
      else
        match tl.drop r2.length with
        | _ :: _ => some (r1, r2)
        | [] => none
    | [] => none

def matchNameSec (l : List Char) : Option (List Char × List Char) :=
  searchAt tryNameSec l

/-- The lookahead `(?![^(]*\))` succeeds exactly when a `)` occurs before any
`(` in the rest of the string. -/
def hasCloseBeforeOpen : List Char → Bool
  | [] => false
  | ')' :: _ => true
  | '(' :: _ => false
  | _ :: t => hasCloseBeforeOpen t

/-- `split(/,(?![^(]*\))/)`: split at commas not inside parentheses. -/
def splitFacultyGo (cur : List Char) : List Char → List (List Char)
  | [] => [cur.reverse]
  | ',' :: rest =>
    if hasCloseBeforeOpen rest then splitFacultyGo (',' :: cur) rest
    else cur.reverse :: splitFacultyGo [] rest
  | c :: rest => splitFacultyGo (c :: cur) rest

def splitFaculty (l : List Char) : List (List Char) := splitFacultyGo [] l

/-- The section-key assignments of one `Name (Sections)` faculty part:
`profs[key] = pName; profs['Sec ' + key] = pName`. -/
def facSecStep (pName : String) (pr : FacultyInfo) (sec : String) : FacultyInfo :=
  let key := trimS (replaceFirstSubStr sec "Sec" "")
  insertA (insertA pr key pName) ("Sec " ++ key) pName

/-- The bare key derived from one section token (`sec.replace('Sec','').trim()`). -/
def facKey (sec : String) : String := trimS (replaceFirstSubStr sec "Sec" "")

/-- The body of the `parts.forEach` of the faculty parser; `total` is
`parts.length`.  A `Name (Sections)` part maps every section token (bare and
`Sec `-prefixed) to the name and sets the default only when it is the sole
part; a parenthesis-free non-empty part always sets the default. -/
def facStep (total : Nat) (profs : FacultyInfo) (p : String) : FacultyInfo :=
  let cleanP := trimS p
  match matchNameSec cleanP.data with
  | some (nm, secs) =>
    let pName := trimS (ofChars nm)
    let sections := (splitCommaAmp secs).map fun s => trimS (ofChars s)
    let profs1 := sections.foldl (facSecStep pName) profs
    if total = 1 then insertA profs1 "default" pName else profs1
  | none => if cleanP ≠ "" then insertA profs "default" cleanP else profs

/-- The whole faculty-string parser for one subject row (`profs` object). -/
def buildFacultyInfo (rawFaculty : String) : FacultyInfo :=
  let init : FacultyInfo := [("default", "Unknown")]
  if rawFaculty = "" ∨ toLowerStr rawFaculty = "unknown" then init
  else
    let parts := (splitFaculty rawFaculty.data).map ofChars
    parts.foldl (facStep parts.length) init

/-- The subject's default instructor after faculty parsing (the `default` key
is present from initialisation on). -/
def facultyDefault (rawFaculty : String) : String :=
  (lookupA (buildFacultyInfo rawFaculty) "default").getD "Unknown"

/-- The metadata-row loop: builds `subjectNameMap` and `facultyMap`. -/
def buildMeta (rows : List (List String)) (mc : MetaCols) :
    List (String × String) × List (String × FacultyInfo) :=
  match mc.mdRow with
  | none => ([], [])
  | some m =>
    ((withIdx 0 rows).filter fun p => decide (m < p.1)).foldl
      (fun st p =>
        let row := p.2
        if getCell row mc.codeCol = "" then st
        else
          let code := sanitize (getCell row mc.codeCol)
          let name := sanitize (getCell row mc.nameCol)
          let rawFaculty := sanitize (getCell row mc.facCol)
          if code = "" then st
          else
            let names := if name ≠ "" then insertA st.1 code name else st.1
            (names, insertA st.2 code (buildFacultyInfo rawFaculty)))
      ([], [])

/-! ## The grid loop of `processExcelData` -/

/-- `cellText.replace(/(\))(\s+)([A-Z]{2,})/g, '$1\n$3')`: a newline is forced
between a closing parenthesis and a following run of two or more capitals. -/
def insertBreaksF : Nat → List Char → List Char
  | 0, l => l
  | _ + 1, [] => []
  | n + 1, c :: rest =>
    if c = ')' then
      let ws := rest.takeWhile jsWs
      let r2 := rest.drop ws.length
      let ups := r2.takeWhile Char.isUpper
      if ws ≠ [] ∧ ups.length ≥ 2 then
        ')' :: '\n' :: (ups ++ insertBreaksF n (r2.drop ups.length))
      else ')' :: insertBreaksF n rest
    else c :: insertBreaksF n rest

def insertBreaks (l : List Char) : List Char := insertBreaksF (l.length + 1) l

/-- The `IGNORE_KEYWORDS.forEach` deletion pass. -/
def removeKeywords (s : String) : String :=
  ofChars (IGNORE_KEYWORDS.foldl (fun l k => removeAllCI l k.data) s.data)

/-- The `^[-:\s\d]+` leading-junk class. -/
def isLeadJunk (c : Char) : Bool := c = '-' || c = ':' || jsWs c || c.isDigit

/-- One line of one grid cell (`lines.forEach` body): keyword removal, junk
strip, the heuristic parser, and either a slot plus a `Parsed` debug row, or —
for non-ignored failures only — a `Failed` debug row. -/
def processLine (merges : List MergeSpan) (colToTime : List (Nat × TimeRange))
    (subjNames : List (String × String)) (facMap : List (String × FacultyInfo))
    (day : String) (r c : Nat) (tr : TimeRange)
    (st : List ParsedSlot × List DebugRow) (line : List Char) :
    List ParsedSlot × List DebugRow :=
  let cleanLine0 := sanitize (ofChars line)
  let cleanLine1 := removeKeywords cleanLine0
  let cleanLine := ofChars (trimL (cleanLine1.data.dropWhile isLeadJunk))
  if cleanLine.length < 2 then st
  else
    match parseSlotHeuristically cleanLine with
    | ParseOutcome.ok sub ty secStr room =>
      let profMapE := (lookupA facMap sub).getD [("default", "Unknown")]
      let short := trimS (replaceFirstSubStr secStr "Sec " "")
      let prof := truthyOr (lookupA profMapE secStr)
        (truthyOr (lookupA profMapE short) ((lookupA profMapE "default").getD "Unknown"))
      let finalEnd := resolveEnd merges r c colToTime tr ty
      let slot : ParsedSlot :=
        ⟨day, tr.start, finalEnd, sub, ty, secStr, room, prof, cleanLine,
          (lookupA subjNames sub).map fun n => containsSub (toLowerStr n).data "minor".data⟩
      (st.1 ++ [slot], st.2 ++ [⟨r + 1, cleanLine, DebugStatus.Parsed, none⟩])
    | ParseOutcome.skipped reason =>
      if IGNORE_EXACT.any fun ig => toUpperStr cleanLine = ig then st
      else
        (st.1,
         st.2 ++ [⟨r + 1, cleanLine, DebugStatus.Failed, some (jsOr reason "Heuristic skipped")⟩])

/-- One grid cell at time column `ct`: the exact-ignore guard runs before any
line processing, so an ignored cell contributes nothing at all. -/
def processCell (merges : List MergeSpan) (colToTime : List (Nat × TimeRange))
    (subjNames : List (String × String)) (facMap : List (String × FacultyInfo))
    (row : List String) (day : String) (r : Nat)
    (st : List ParsedSlot × List DebugRow) (ct : Nat × TimeRange) :
    List ParsedSlot × List DebugRow :=
  let cellText := sanitize (getCell row ct.1)
  if IGNORE_EXACT.any fun w => toUpperStr cellText = w then st
  else if 2 < cellText.length then
    let cell2 := insertBreaks cellText.data
    let lines := (splitLinesJs cell2).filter fun l => !(trimL l).isEmpty
    lines.foldl (processLine merges colToTime subjNames facMap day r ct.1 ct.2) st
  else st

/-- One grid row: day-label carry, then every time column of the row. -/
def processRow (merges : List MergeSpan) (colToTime : List (Nat × TimeRange))
    (subjNames : List (String × String)) (facMap : List (String × FacultyInfo))
    (st : String × List ParsedSlot × List DebugRow) (p : Nat × List String) :
    String × List ParsedSlot × List DebugRow :=
  let row := p.2
  let rawDay := toUpperStr (sanitize (getCell row 0))
  let day := if DAYS.any (fun d => containsSub rawDay.data d.data) then rawDay else st.1
  if day = "" then (day, st.2.1, st.2.2)
  else
    let res := colToTime.foldl (processCell merges colToTime subjNames facMap row day p.1)
      (st.2.1, st.2.2)
    (day, res.1, res.2)

structure ImportResult where
  slots : List ParsedSlot
  debug : List DebugRow
  subjectNames : List (String × String)
deriving DecidableEq, Repr

/-- `processExcelData`: header detection on row index 1 (fatal `none` when the
grid is too short or no time column is found), metadata discovery, then the
grid loop over rows 2 … `endRow`. -/
def processExcelData (rows : List (List String)) (merges : List MergeSpan) :
    Option ImportResult :=
  if rows.length ≤ TIME_ROW_INDEX then none
  else
    let headerRow := (rows.get? TIME_ROW_INDEX).getD []
    let colToTime := detectTimeAxis headerRow
    if colToTime = [] then none
    else
      let mc := detectMeta rows
      let nmFac := buildMeta rows mc
      let endRow := match mc.mdRow with
        | some m => m
        | none => rows.length
      let bodyRows := (withIdx 0 rows).filter
        fun p => decide (TIME_ROW_INDEX + 1 ≤ p.1) && decide (p.1 < endRow)
      let res := bodyRows.foldl (processRow merges colToTime nmFac.1 nmFac.2) ("", [], [])
      some ⟨res.2.1, res.2.2, nmFac.1⟩

/-! ## The L-T-P-S cross-check (sibling importer revision) -/

/-- Declared credit structure `L-T-P-S` parsed from the metadata column. -/
structure Ltps where
  L : Nat
  T : Nat
  P : Nat
  S : Nat
deriving DecidableEq, Repr

def subjSlots (slots : List ParsedSlot) (code : String) : List ParsedSlot :=
  slots.filter fun s => decide (s.subjectCode = code)

/-- The dedup key of `uniqCount`: the template string `day|section`. -/
def slotKey (s : ParsedSlot) : String := s.day ++ "|" ++ s.secName

/-- `uniqCount`: the number of distinct `day|section` keys among the given
slots of the given type (a JS `Set` of key strings). -/
def uniqCount (slots : List ParsedSlot) (ty : SlotType) : Nat :=
  (((slots.filter fun s => decide (s.type = ty)).map slotKey).dedup).length

/-- The specification-side count of distinct (day, section) pairs, used to
relate `uniqCount` to the claim's wording. -/
def pairCount (slots : List ParsedSlot) (ty : SlotType) : Nat :=
  (((slots.filter fun s => decide (s.type = ty)).map fun s => (s.day, s.secName)).dedup).length

inductive CellStatus
  | ok
  | bad
  | noref
deriving DecidableEq, Repr

/-- `checkCell`: no declared reference is `noref`, otherwise exact equality
decides pass or fail. -/
def checkCell (got : Nat) (expected : Option Nat) : CellStatus :=
  match expected with
  | none => CellStatus.noref
  | some e => if got = e then CellStatus.ok else CellStatus.bad

/-- The `allOk` flag of one cross-check table row: vacuously true without a
declared structure, else the conjunction of the three exact count matches. -/
def allOk (slots : List ParsedSlot) (code : String) (ltpsMap : List (String × Ltps)) : Bool :=
  let ss := subjSlots slots code
  match lookupA ltpsMap code with
  | none => true
  | some e =>
    decide (uniqCount ss SlotType.Lecture = e.L) &&
    decide (uniqCount ss SlotType.Tutorial = e.T) &&
    decide (uniqCount ss SlotType.Practical = e.P)

/-- The three `CellBadge` statuses of one cross-check table row
(`exp = excelLtps?.L` and so on). -/
def rowCellStatuses (slots : List ParsedSlot) (code : String)
    (ltpsMap : List (String × Ltps)) : CellStatus × CellStatus × CellStatus :=
  let ss := subjSlots slots code
  let e := lookupA ltpsMap code
  (checkCell (uniqCount ss SlotType.Lecture) (e.map (·.L)),
   checkCell (uniqCount ss SlotType.Tutorial) (e.map (·.T)),
   checkCell (uniqCount ss SlotType.Practical) (e.map (·.P)))

/-! ## Dependency upsert & foreign-key resolution (`handleUploadToDB`) -/

/-- JS `Set` membership-insert (insertion order kept, duplicates dropped). -/
def setInsert (l : List SlotType) (t : SlotType) : List SlotType :=
  if t ∈ l then l else l ++ [t]

/-- `roomTypesMap[n]`: the set of slot types observed in room `n`; slots with
a falsy (empty) room name are skipped by the loop. -/
def typesFor (slots : List ParsedSlot) (n : String) : List SlotType :=
  slots.foldl (fun acc s => if s.room = n ∧ s.room ≠ "" then setInsert acc s.type else acc) []

/-- The upserted `room_type`: `'Lab'` only when the observed type set is
exactly `{Practical}`. -/
def roomTypeFor (slots : List ParsedSlot) (n : String) : String :=
  let t := typesFor slots n
  if t.length = 1 ∧ SlotType.Practical ∈ t then "Lab" else "Lecture"

/-- `[...new Set(list)]`. -/
def jsSetList (l : List String) : List String :=
  l.foldl (fun acc s => if s ∈ acc then acc else acc ++ [s]) []

def uniqueRoomsOf (slots : List ParsedSlot) : List String :=
  jsSetList (slots.map (·.room))

/-- One row of a fetched store table (`{id, code}` for subjects, `{id, name}`
for the rest; the key field is embedded as `name`). -/
structure DbEntry where
  id : Nat
  name : String
deriving DecidableEq, Repr

/-- `findId`: first row whose key equals the value case-insensitively. -/
def findId (l : List DbEntry) (v : String) : Option Nat :=
  (l.find? fun it => toLowerStr it.name == toLowerStr v).map (·.id)

/-- `['MON',...].findIndex(d => slot.day.includes(d)) + 1` (−1 + 1 = 0 when no
day matches). -/
def dayIndex (day : String) : Nat :=
  match DAYS.findIdx? fun d => containsSub day.data d.data with
  | some i => i + 1
  | none => 0

structure InsertRow where
  subjectId : Nat
  professorId : Option Nat
  roomId : Option Nat
  groupId : Nat
  dayOfWeek : Nat
  startTime : String
  endTime : String
  slotType : SlotType
deriving DecidableEq, Repr

/-- The per-slot mapping of the insert loop: `null` (dropped) exactly when the
subject or the group is unresolved; the professor falls back to the `Unknown`
instructor's id, the room stays unresolved (`null` column). -/
def mapSlotToRow (dbSubjects dbProfs dbRooms dbGroups : List DbEntry)
    (unknownProfId : Option Nat) (slot : ParsedSlot) : Option InsertRow :=
  let subId := findId dbSubjects slot.subjectCode
  let profId := jsOrOpt (findId dbProfs slot.facultyName) unknownProfId
  let roomId := findId dbRooms slot.room
  let groupId := findId dbGroups slot.secName
  match subId, groupId with
  | some s, some g =>
    some ⟨s, profId, roomId, g, dayIndex slot.day, slot.timeStart, slot.timeEnd, slot.type⟩
  | _, _ => none

/-- `slotsToInsert` plus `dropCount` (the `.filter(Boolean)` batch and the
counted drops). -/
def resolveSlots (dbSubjects dbProfs dbRooms dbGroups : List DbEntry)
    (unknownProfId : Option Nat) (slots : List ParsedSlot) : List InsertRow × Nat :=
  (slots.filterMap (mapSlotToRow dbSubjects dbProfs dbRooms dbGroups unknownProfId),
   (slots.filter fun s =>
     (mapSlotToRow dbSubjects dbProfs dbRooms dbGroups unknownProfId s).isNone).length)

/-! ## Specification-side notions used to state the claims -/

/-- Minutes since midnight of an `h:mm` rendering (to state overlap). -/
def timeToMinutes (s : String) : Nat :=
  match splitChar s.data ':' with
  | [h, m] => (parseNatChars h).getD 0 * 60 + (parseNatChars m).getD 0
  | _ => 0

/-- Two time columns overlap when each starts before the other ends. -/
def overlaps (a b : TimeRange) : Bool :=
  decide (timeToMinutes a.start < timeToMinutes b.endT) &&
  decide (timeToMinutes b.start < timeToMinutes a.endT)

/-! ## Concrete instances used by the claim theorems -/

/-- Slot builder for concrete cross-check / resolution instances. -/
def mkSlot (day : String) (ty : SlotType) (secName code room : String) : ParsedSlot :=
  ⟨day, "9:00", "10:00", code, ty, secName, room, "X", "", none⟩

/-- The grid of the concrete header/cell scenario: row 0 padding, the time
header at row index 1, one `MON` row with the cell at the first time column. -/
def c1rows : List (List String) :=
  [[""],
   ["", "08:50-09:50", "09:50-10:50", "11:00-12:00"],
   ["MON", "CS101 (L) (LT-101) Sec A", "", ""]]

/-- The slot the engine actually extracts from `c1rows`. -/
def c1slot : ParsedSlot :=
  ⟨"MON", "8:50", "9:50", "CS101   LT-101", SlotType.Lecture, "Sec A", "TBA",
   "Unknown", "CS101 (L) (LT-101) Sec A", none⟩

/-- A header row whose two cells each hold exactly one unambiguous time-range
token, with overlapping ranges. -/
def c2hdr : List String := ["08:00-09:00", "08:30-09:30"]

/-- A slot list with 1 distinct lecture (day, section) pair, for the
cross-check witness. -/
def c3slots : List ParsedSlot := [mkSlot "MON" SlotType.Lecture "Sec A" "CS1" "R1"]

def c3ltps : List (String × Ltps) := [("CS1", ⟨1, 0, 0, 0⟩)]

/-- 3 distinct lecture pairs, 1 tutorial pair, 1 practical pair (one 2-hour
block) for subject CS101. -/
def c4slots : List ParsedSlot :=
  [mkSlot "MON" SlotType.Lecture "Sec A" "CS101" "R1",
   mkSlot "TUE" SlotType.Lecture "Sec A" "CS101" "R1",
   mkSlot "WED" SlotType.Lecture "Sec A" "CS101" "R1",
   mkSlot "MON" SlotType.Tutorial "Sec A" "CS101" "R1",
   mkSlot "THU" SlotType.Practical "Sec A" "CS101" "R1"]

def c4ltps : List (String × Ltps) := [("CS101", ⟨3, 1, 2, 0⟩)]

/-- As `c4slots` but with a second distinct practical pair. -/
def c4slotsOk : List ParsedSlot :=
  c4slots ++ [mkSlot "FRI" SlotType.Practical "Sec A" "CS101" "R1"]

/-- The grid with a cell containing only `LUNCH`. -/
def c5rows : List (List String) :=
  [[""], ["", "08:50-09:50"], ["MON", "LUNCH"]]

def c7slot : ParsedSlot := mkSlot "MON" SlotType.Lecture "Sec A" "CS101" "R9"

def c7dbS : List DbEntry := [⟨1, "cs101"⟩]

def c7dbP : List DbEntry := [⟨2, "Unknown"⟩]

def c7dbR : List DbEntry := [⟨3, "LT-101"⟩]

def c7dbG : List DbEntry := [⟨4, "sec a"⟩]

/-- The insert row `c7slot` resolves to against the tables above. -/
def c7row : InsertRow := ⟨1, some 2, none, 4, 1, "9:00", "10:00", SlotType.Lecture⟩

/-- One merge span whose top-left corner is row 5, column 2, spanning columns
2–4. -/
def c8merges : List MergeSpan := [⟨5, 2, 5, 4⟩]

/-- Time columns 2–4. -/
def c8cols : List (Nat × TimeRange) :=
  [(2, ⟨"9:50", "10:50"⟩), (3, ⟨"10:50", "11:50"⟩), (4, ⟨"11:50", "12:50"⟩)]

/-- A merge span starting at row 5, column 2 whose right edge (column 7) is
not a time column. -/
def c10merges : List MergeSpan := [⟨5, 2, 5, 7⟩]

/-- A room referenced only by practical slots next to a lecture room. -/
def c9slots : List ParsedSlot :=
  [mkSlot "MON" SlotType.Practical "Sec A" "CS1" "LAB-1",
   mkSlot "TUE" SlotType.Practical "Sec B" "CS1" "LAB-1",
   mkSlot "TUE" SlotType.Lecture "Sec A" "CS1" "LT-1"]

/-! ## Helper lemmas -/

theorem dataAppend (a b : String) : (a ++ b).data = a.data ++ b.data := by
  cases a
  cases b
  rfl

theorem lookupA_insertA_self (l : List (String × α)) (k : String) (v : α) :
    lookupA (insertA l k v) k = some v := by
  induction l with
  | nil => simp [insertA, lookupA]
  | cons h t ih =>
    obtain ⟨k0, v0⟩ := h
    by_cases hk : k0 = k
    · simp [insertA, hk, lookupA]
    · simp [insertA, hk, lookupA, ih]

theorem lookupA_insertA_ne (l : List (String × α)) (k k' : String) (v : α)
    (h : k' ≠ k) : lookupA (insertA l k v) k' = lookupA l k' := by
  have hne : ¬ k = k' := fun hh => h hh.symm
  induction l with
  | nil => simp only [insertA, lookupA, if_neg hne]
  | cons hd t ih =>
    obtain ⟨k0, v0⟩ := hd
    by_cases hk : k0 = k
    · subst hk
      rw [show insertA ((k0, v0) :: t) k0 v = (k0, v) :: t from by simp [insertA]]
      simp only [lookupA, if_neg hne]
    · simp only [insertA, if_neg hk, lookupA]
      by_cases h0 : k0 = k'
      · simp [h0]
      · simp [h0, ih]

theorem secPrefixNe (key : String) : ("Sec " ++ key) ≠ "default" := by
  intro h
  have h2 := congrArg String.data h
  rw [dataAppend] at h2
  rw [show "Sec ".data = ['S', 'e', 'c', ' '] from rfl,
    show "default".data = ['d', 'e', 'f', 'a', 'u', 'l', 't'] from rfl] at h2
  exact absurd (List.head_eq_of_cons_eq h2) (by decide)

theorem filterMap_isNone_len (f : α → Option β) (l : List α) :
    (l.filterMap f).length + (l.filter fun a => (f a).isNone).length = l.length := by
  induction l with
  | nil => rfl
  | cons a t ih =>
    cases h : f a <;>
      simp [List.filterMap_cons, h, List.filter_cons] <;> omega

theorem dedup_map_len_eq [DecidableEq β] [DecidableEq γ] (f : α → β) (g : α → γ) :
    ∀ xs : List α, (∀ a ∈ xs, ∀ b ∈ xs, (f a = f b ↔ g a = g b)) →
      ((xs.map f).dedup).length = ((xs.map g).dedup).length := by
  intro xs
  induction xs with
  | nil => intro _; rfl
  | cons a t ih =>
    intro h
    have hsub : ∀ x ∈ t, ∀ y ∈ t, (f x = f y ↔ g x = g y) := by
      intro x hx y hy
      exact h x (List.mem_cons_of_mem _ hx) y (List.mem_cons_of_mem _ hy)
    have hmem : (f a ∈ t.map f) ↔ (g a ∈ t.map g) := by
      simp only [List.mem_map]
      constructor
      · rintro ⟨b, hb, hfb⟩
        exact ⟨b, hb, (h b (List.mem_cons_of_mem _ hb) a (List.mem_cons_self _ _)).mp hfb⟩
      · rintro ⟨b, hb, hgb⟩
        exact ⟨b, hb, (h b (List.mem_cons_of_mem _ hb) a (List.mem_cons_self _ _)).mpr hgb⟩
    by_cases hf : f a ∈ t.map f
    · rw [List.map_cons, List.map_cons, List.dedup_cons_of_mem hf,
        List.dedup_cons_of_mem (hmem.mp hf)]
      exact ih hsub
    · rw [List.map_cons, List.map_cons, List.dedup_cons_of_not_mem hf,
        List.dedup_cons_of_not_mem (fun hg => hf (hmem.mpr hg))]
      simp [ih hsub]

theorem append_sep_inj : ∀ l1 l2 r1 r2 : List Char, '|' ∉ l1 → '|' ∉ l2 →
    (l1 ++ '|' :: r1 = l2 ++ '|' :: r2 ↔ l1 = l2 ∧ r1 = r2) := by
  intro l1
  induction l1 with
  | nil =>
    intro l2 r1 r2 _ h2
    cases l2 with
    | nil => simp
    | cons c t =>
      simp only [List.nil_append, List.cons_append, List.cons.injEq]
      constructor
      · rintro ⟨hc, _⟩
        exact absurd (hc ▸ List.mem_cons_self c t) h2
      · rintro ⟨h, _⟩
        exact absurd h (by simp)
  | cons c t ih =>
    intro l2 r1 r2 h1 h2
    cases l2 with
    | nil =>
      simp only [List.nil_append, List.cons_append, List.cons.injEq]
      constructor
      · rintro ⟨hc, _⟩
        exact absurd (hc ▸ List.mem_cons_self c t) h1
      · rintro ⟨h, _⟩
        exact absurd h (by simp)
    | cons d u =>
      simp only [List.cons_append, List.cons.injEq]
      rw [ih u r1 r2 (fun hm => h1 (List.mem_cons_of_mem _ hm))
        (fun hm => h2 (List.mem_cons_of_mem _ hm))]
      tauto

theorem slotKey_eq_iff (a b : ParsedSlot) (ha : '|' ∉ a.day.data)
    (hb : '|' ∉ b.day.data) :
    (slotKey a = slotKey b) ↔ ((a.day, a.secName) = (b.day, b.secName)) := by
  unfold slotKey
  constructor
  · intro h
    have h2 := congrArg String.data h
    rw [dataAppend, dataAppend, dataAppend, dataAppend,
      show ("|" : String).data = ['|'] from rfl] at h2
    simp only [List.append_assoc, List.singleton_append] at h2
    obtain ⟨hd, hs⟩ := (append_sep_inj _ _ _ _ ha hb).mp h2
    have hd' : a.day = b.day := by
      cases hday : a.day
      cases hday2 : b.day
      simp_all
    have hs' : a.secName = b.secName := by
      cases hsec : a.secName
      cases hsec2 : b.secName
      simp_all
    rw [hd', hs']
  · intro h
    rw [Prod.mk.injEq] at h
    rw [h.1, h.2]

theorem mem_jsSetList_aux (x : String) :
    ∀ (l : List String) (acc : List String),
      (x ∈ l.foldl (fun acc s => if s ∈ acc then acc else acc ++ [s]) acc) ↔
        (x ∈ acc ∨ x ∈ l) := by
  intro l
  induction l with
  | nil => intro acc; simp
  | cons a t ih =>
    intro acc
    by_cases ha : a ∈ acc
    · simp only [List.foldl_cons, if_pos ha, ih]
      constructor
      · rintro (h | h)
        · exact Or.inl h
        · exact Or.inr (List.mem_cons_of_mem _ h)
      · rintro (h | h)
        · exact Or.inl h
        · rcases List.mem_cons.mp h with rfl | h
          · exact Or.inl ha
          · exact Or.inr h
    · simp only [List.foldl_cons, if_neg ha, ih]
      simp only [List.mem_append, List.mem_singleton, List.mem_cons]
      tauto

theorem mem_jsSetList (x : String) (l : List String) :
    x ∈ jsSetList l ↔ x ∈ l := by
  unfold jsSetList
  rw [mem_jsSetList_aux]
  simp

theorem mem_typesFor_aux (n : String) (t : SlotType) :
    ∀ (slots : List ParsedSlot) (acc : List SlotType),
      (t ∈ slots.foldl
        (fun acc s => if s.room = n ∧ s.room ≠ "" then setInsert acc s.type else acc) acc) ↔
      (t ∈ acc ∨ ∃ s ∈ slots, s.room = n ∧ s.room ≠ "" ∧ s.type = t) := by
  intro slots
  induction slots with
  | nil => intro acc; simp
  | cons a rest ih =>
    intro acc
    by_cases ha : a.room = n ∧ a.room ≠ ""
    · simp only [List.foldl_cons, if_pos ha, ih]
      unfold setInsert
      by_cases hmem : a.type ∈ acc
      · rw [if_pos hmem]
        constructor
        · rintro (h | h)
          · exact Or.inl h
          · obtain ⟨s, hs, hp⟩ := h
            exact Or.inr ⟨s, List.mem_cons_of_mem _ hs, hp⟩
        · rintro (h | h)
          · exact Or.inl h
          · obtain ⟨s, hs, hr, hr2, ht⟩ := h
            rcases List.mem_cons.mp hs with rfl | hs
            · exact Or.inl (ht ▸ hmem)
            · exact Or.inr ⟨s, hs, hr, hr2, ht⟩
      · rw [if_neg hmem]
        simp only [List.mem_append, List.mem_singleton]
        constructor
        · rintro ((h | h) | h)
          · exact Or.inl h
          · exact Or.inr ⟨a, List.mem_cons_self _ _, ha.1, ha.2, h.symm⟩
          · obtain ⟨s, hs, hp⟩ := h
            exact Or.inr ⟨s, List.mem_cons_of_mem _ hs, hp⟩
        · rintro (h | h)
          · exact Or.inl (Or.inl h)
          · obtain ⟨s, hs, hr, hr2, ht⟩ := h
            rcases List.mem_cons.mp hs with rfl | hs
            · exact Or.inl (Or.inr ht.symm)
            · exact Or.inr ⟨s, hs, hr, hr2, ht⟩
    · simp only [List.foldl_cons, if_neg ha, ih]
      constructor
      · rintro (h | h)
        · exact Or.inl h
        · obtain ⟨s, hs, hp⟩ := h
          exact Or.inr ⟨s, List.mem_cons_of_mem _ hs, hp⟩
      · rintro (h | h)
        · exact Or.inl h
        · obtain ⟨s, hs, hr, hr2, ht⟩ := h
          rcases List.mem_cons.mp hs with rfl | hs
          · exact absurd ⟨hr, hr2⟩ ha
          · exact Or.inr ⟨s, hs, hr, hr2, ht⟩

theorem mem_typesFor (slots : List ParsedSlot) (n : String) (t : SlotType) :
    t ∈ typesFor slots n ↔ ∃ s ∈ slots, s.room = n ∧ s.room ≠ "" ∧ s.type = t := by
  unfold typesFor
  rw [mem_typesFor_aux]
  simp

theorem nodup_setInsert (l : List SlotType) (t : SlotType) (h : l.Nodup) :
    (setInsert l t).Nodup := by
  unfold setInsert
  by_cases hm : t ∈ l
  · simpa [hm]
  · simp [hm, List.nodup_append, h]

theorem nodup_typesFor_aux (n : String) :
    ∀ (slots : List ParsedSlot) (acc : List SlotType), acc.Nodup →
      (slots.foldl
        (fun acc s => if s.room = n ∧ s.room ≠ "" then setInsert acc s.type else acc)
        acc).Nodup := by
  intro slots
  induction slots with
  | nil => intro acc h; simpa
  | cons a rest ih =>
    intro acc h
    simp only [List.foldl_cons]
    by_cases ha : a.room = n ∧ a.room ≠ ""
    · rw [if_pos ha]
      exact ih _ (nodup_setInsert _ _ h)
    · rw [if_neg ha]
      exact ih _ h

theorem nodup_typesFor (slots : List ParsedSlot) (n : String) :
    (typesFor slots n).Nodup :=
  nodup_typesFor_aux n slots [] List.nodup_nil

theorem withIdx_axis_len :
    ∀ (l : List String) (n : Nat),
      ((withIdx n l).filterMap fun p => (parseTimeCell p.2).map fun tr => (p.1, tr)).length
        = l.countP fun cell => (parseTimeCell cell).isSome := by
  intro l
  induction l with
  | nil => intro n; rfl
  | cons a t ih =>
    intro n
    cases h : parseTimeCell a <;>
      simp [withIdx, List.filterMap_cons, h, List.countP_cons, ih]

/-! ## Claim theorems -/

/-- C8: for a parsed cell line at grid position (r, c), a merge span whose
top-left corner is (r, c) makes the slot's end time the end time of the time
column at the span's right edge; with no such span a Practical slot defaults
to start + 2 hours, and any other slot keeps the containing column's own
end. -/
theorem c8_merge_end (merges : List MergeSpan) (r c : Nat)
    (colToTime : List (Nat × TimeRange)) (tr : TimeRange) (ty : SlotType) :
    (∀ m tc, mergeFind merges r c = some m → lookupCol colToTime m.ec = some tc →
      resolveEnd merges r c colToTime tr ty = tc.endT)
    ∧ (mergeFind merges r c = none → ty = SlotType.Practical →
      resolveEnd merges r c colToTime tr ty = addTwoHours tr.start)
    ∧ (mergeFind merges r c = none → ty ≠ SlotType.Practical →
      resolveEnd merges r c colToTime tr ty = tr.endT) := by
  refine ⟨?_, ?_, ?_⟩
  · intro m tc h1 h2
    simp only [resolveEnd, h1, h2]
  · intro h1 h2
    simp only [resolveEnd, h1]
    rw [if_pos h2]
  · intro h1 h2
    simp only [resolveEnd, h1]
    rw [if_neg h2]

/-- C8 witness: a merge covering columns 2–4 yields column 4's end time
`12:50`, not column 2's `10:50`. -/
theorem c8_merge_end_witness :
    resolveEnd c8merges 5 2 c8cols ⟨"9:50", "10:50"⟩ SlotType.Lecture = "12:50" :=
  (c8_merge_end c8merges 5 2 c8cols ⟨"9:50", "10:50"⟩ SlotType.Lecture).1
    ⟨5, 2, 5, 4⟩ ⟨"11:50", "12:50"⟩ (by decide) (by decide)

/-- C10: when a merge span starts at the cell but the column at its right edge
is not a detected time column, the end time stays the containing column's own
end — in particular the Practical two-hour default is not applied. -/
theorem c10_merge_nontime (merges : List MergeSpan) (r c : Nat)
    (colToTime : List (Nat × TimeRange)) (tr : TimeRange) (ty : SlotType)
    (m : MergeSpan) (h1 : mergeFind merges r c = some m)
    (h2 : lookupCol colToTime m.ec = none) :
    resolveEnd merges r c colToTime tr ty = tr.endT := by
  simp only [resolveEnd, h1, h2]

/-- C10 witness: a Practical slot under a merge whose right edge (column 7) is
not a time column keeps the column end `10:50` (the two-hour default would
have produced `11:50`). -/
theorem c10_merge_nontime_witness :
    resolveEnd c10merges 5 2 c8cols ⟨"9:50", "10:50"⟩ SlotType.Practical = "10:50"
      ∧ addTwoHours "9:50" ≠ "10:50" :=
  ⟨c10_merge_nontime c10merges 5 2 c8cols ⟨"9:50", "10:50"⟩ SlotType.Practical
      ⟨5, 2, 5, 7⟩ (by decide) (by decide),
   by decide⟩

/-- C7: slots are matched to store rows by case-insensitive exact name; a slot
is dropped from the insert batch exactly when its subject or its section is
unresolved (and only counted, not fatal: batch + drop count = total), while an
unresolved instructor falls back to the Unknown instructor's id and an
unresolved room stays null. -/
theorem c7_resolution (dbS dbP dbR dbG : List DbEntry) (unk : Option Nat)
    (slots : List ParsedSlot) (slot : ParsedSlot) :
    ((mapSlotToRow dbS dbP dbR dbG unk slot = none) ↔
      (findId dbS slot.subjectCode = none ∨ findId dbG slot.secName = none))
    ∧ (∀ row, mapSlotToRow dbS dbP dbR dbG unk slot = some row →
        row.professorId = jsOrOpt (findId dbP slot.facultyName) unk ∧
        row.roomId = findId dbR slot.room)
    ∧ ((resolveSlots dbS dbP dbR dbG unk slots).1.length
        + (resolveSlots dbS dbP dbR dbG unk slots).2 = slots.length)
    ∧ (∀ (l : List DbEntry) (v : String),
        (findId l v).isSome ↔ ∃ it ∈ l, toLowerStr it.name = toLowerStr v) := by
  refine ⟨?_, ?_, ?_, ?_⟩
  · unfold mapSlotToRow
    cases h1 : findId dbS slot.subjectCode <;>
      cases h2 : findId dbG slot.secName <;> simp
  · intro row h
    cases h1 : findId dbS slot.subjectCode with
    | none => exfalso; simp [mapSlotToRow, h1] at h
    | some s =>
      cases h2 : findId dbG slot.secName with
      | none => exfalso; simp [mapSlotToRow, h1, h2] at h
      | some g =>
        simp only [mapSlotToRow, h1, h2, Option.some.injEq] at h
        rw [← h]
        exact ⟨rfl, rfl⟩
  · exact filterMap_isNone_len _ slots
  · intro l v
    unfold findId
    cases hf : l.find? fun it => toLowerStr it.name == toLowerStr v with
    | none =>
      simp only [Option.map_none', Option.isSome_none]
      constructor
      · intro h
        exact absurd h (by decide)
      · rintro ⟨it, hit, hp⟩
        have hno := List.find?_eq_none.mp hf it hit
        exact (hno (by simpa using hp)).elim
    | some it0 =>
      simp only [Option.map_some', Option.isSome_some]
      constructor
      · intro _
        exact ⟨it0, List.mem_of_find?_eq_some hf, by simpa using List.find?_some hf⟩
      · intro _
        trivial

/-- C7 witness: against concrete tables, `CS101` resolves case-insensitively
to the `cs101` row and `Sec A` to `sec a`; the unresolved faculty `X` falls
back to the Unknown id 2 and the unresolved room `R9` stays null. -/
theorem c7_resolution_witness :
    c7row.professorId = jsOrOpt (findId c7dbP c7slot.facultyName) (some 2) ∧
    c7row.roomId = findId c7dbR c7slot.room :=
  (c7_resolution c7dbS c7dbP c7dbR c7dbG (some 2) [] c7slot).2.1 c7row (by decide)

/-- C2 (amended): time-axis detection produces exactly one TimeColumn per
header cell matching a time-range token and nothing else — in particular no
synthetic break/lunch columns are added (those exist only in the out-of-scope
viewer components) and no overlap check is performed. -/
theorem c2_axis_count (headerRow : List String) :
    (detectTimeAxis headerRow).length =
      headerRow.countP fun cell => (parseTimeCell cell).isSome := by
  unfold detectTimeAxis
  exact withIdx_axis_len headerRow 0

/-- C2 counterexample: a header row in which every cell holds exactly one
unambiguous time-range token produces exactly as many columns as matched cells
(2, not the claimed 2 + 2 with two break/lunch columns), and the two produced
columns overlap. -/
theorem c2_counterexample :
    detectTimeAxis c2hdr = [(0, ⟨"8:00", "9:00"⟩), (1, ⟨"8:30", "9:30"⟩)]
    ∧ (∀ cell ∈ c2hdr, (parseTimeCell cell).isSome)
    ∧ (detectTimeAxis c2hdr).length = 2
    ∧ 2 ≠ c2hdr.length + 2
    ∧ overlaps ⟨"8:00", "9:00"⟩ ⟨"8:30", "9:30"⟩ = true := by
  refine ⟨by decide, by decide, by decide, by decide, by decide⟩

/-- C4 counterexample: for declared `L-T-P-S = 3-1-2-0`, a slot list with
exactly 3 distinct lecture (day, section) pairs, 1 tutorial pair and 1
practical pair (one 2-hour block) is reported inconsistent (`allOk = false`),
not consistent as claimed: the practical block count 1 is compared against the
declared practical hours 2. -/
theorem c4_counterexample :
    lookupA c4ltps "CS101" = some ⟨3, 1, 2, 0⟩
    ∧ uniqCount (subjSlots c4slots "CS101") SlotType.Lecture = 3
    ∧ uniqCount (subjSlots c4slots "CS101") SlotType.Tutorial = 1
    ∧ uniqCount (subjSlots c4slots "CS101") SlotType.Practical = 1
    ∧ allOk c4slots "CS101" c4ltps = false := by
  refine ⟨by decide, by decide, by decide, by decide, by decide⟩

/-- C4 (amended): for a subject declared `3-1-2-0`, the report is consistent
exactly when the distinct (day, section) counts are 3 lectures, 1 tutorial and
2 practicals; changing any one of the three counts flips the report to false —
so one practical 2-hour block (count 1 against declared P = 2) reports
false. -/
theorem c4_ltps_consistency (slots : List ParsedSlot) (code : String)
    (ltpsMap : List (String × Ltps))
    (h : lookupA ltpsMap code = some ⟨3, 1, 2, 0⟩) :
    allOk slots code ltpsMap = true ↔
      (uniqCount (subjSlots slots code) SlotType.Lecture = 3
        ∧ uniqCount (subjSlots slots code) SlotType.Tutorial = 1
        ∧ uniqCount (subjSlots slots code) SlotType.Practical = 2) := by
  simp [allOk, h, and_assoc]

/-- C4 witness: the same slot list with a second distinct practical pair is
reported consistent. -/
theorem c4_ltps_consistency_witness : allOk c4slotsOk "CS101" c4ltps = true :=
  (c4_ltps_consistency c4slotsOk "CS101" c4ltps (by decide)).mpr (by decide)

/-- C9: in the dependency upsert a room is stored with the `Lab` room type
exactly when every parsed slot referencing it is Practical (rooms come from
the slots themselves, so a referenced room with a non-empty name has at least
one slot and one observed type). -/
theorem c9_room_type (slots : List ParsedSlot) (n : String)
    (h1 : n ∈ uniqueRoomsOf slots) (h2 : n ≠ "") :
    roomTypeFor slots n = "Lab" ↔
      ∀ s ∈ slots, s.room = n → s.type = SlotType.Practical := by
  have hex : ∃ s ∈ slots, s.room = n := by
    unfold uniqueRoomsOf at h1
    have := (mem_jsSetList n (slots.map (·.room))).mp h1
    obtain ⟨s, hs, hr⟩ := List.mem_map.mp this
    exact ⟨s, hs, hr⟩
  obtain ⟨s0, hs0, hr0⟩ := hex
  have ht0 : s0.type ∈ typesFor slots n :=
    (mem_typesFor slots n s0.type).mpr ⟨s0, hs0, hr0, hr0 ▸ h2, rfl⟩
  constructor
  · intro hLab s hs hr
    simp only [roomTypeFor] at hLab
    split_ifs at hLab with hcond
    · obtain ⟨x, hx⟩ := List.length_eq_one.mp hcond.1
      have hxP : x = SlotType.Practical := by
        have hp := hcond.2
        rw [hx] at hp
        have := List.mem_singleton.mp hp
        exact this.symm
      have hmem : s.type ∈ typesFor slots n :=
        (mem_typesFor slots n s.type).mpr ⟨s, hs, hr, hr ▸ h2, rfl⟩
      rw [hx, hxP] at hmem
      simpa using hmem
    · exact absurd hLab (by decide)
  · intro hAll
    have hteq : typesFor slots n = [SlotType.Practical] := by
      have hallP : ∀ t ∈ typesFor slots n, t = SlotType.Practical := by
        intro t ht
        obtain ⟨s, hs, hr, _, htype⟩ := (mem_typesFor slots n t).mp ht
        rw [← htype]
        exact hAll s hs hr
      have hnd := nodup_typesFor slots n
      have htP : SlotType.Practical ∈ typesFor slots n := by
        have := hallP s0.type ht0
        rw [← this]
        exact ht0
      cases hcase : typesFor slots n with
      | nil => rw [hcase] at ht0; simp at ht0
      | cons x xs =>
        have hx : x = SlotType.Practical :=
          hallP x (by rw [hcase]; exact List.mem_cons_self _ _)
        cases hxs : xs with
        | nil => rw [hx]
        | cons y ys =>
          exfalso
          have hy : y = SlotType.Practical := by
            apply hallP
            rw [hcase, hxs]
            exact List.mem_cons_of_mem _ (List.mem_cons_self _ _)
          rw [hcase, hxs] at hnd
          rw [hx] at hnd
          rw [hy] at hnd
          simp at hnd
    simp only [roomTypeFor]
    rw [hteq]
    simp

/-- C9 witness: the room referenced only by practicals is typed `Lab`. -/
theorem c9_room_type_witness : roomTypeFor c9slots "LAB-1" = "Lab" :=
  (c9_room_type c9slots "LAB-1" (by decide) (by decide)).mpr (by decide)

/-- C3: the cross-check counts distinct (day, section) pairs per slot type
(the `day|section` key set counts pairs whenever day labels are `|`-free, so a
merged multi-column slot counts once); with a declared structure the subject
is consistent exactly when all three counts match, and without one all three
cells report `noref`, which is distinct from both pass and fail. -/
theorem c3_crosscheck (slots : List ParsedSlot) (code : String)
    (ltpsMap : List (String × Ltps))
    (hpf : ∀ s ∈ slots, '|' ∉ s.day.data ∧ '|' ∉ s.secName.data) :
    (∀ ty, uniqCount (subjSlots slots code) ty = pairCount (subjSlots slots code) ty)
    ∧ (∀ e, lookupA ltpsMap code = some e →
        (allOk slots code ltpsMap = true ↔
          (pairCount (subjSlots slots code) SlotType.Lecture = e.L
            ∧ pairCount (subjSlots slots code) SlotType.Tutorial = e.T
            ∧ pairCount (subjSlots slots code) SlotType.Practical = e.P)))
    ∧ (lookupA ltpsMap code = none →
        rowCellStatuses slots code ltpsMap =
            (CellStatus.noref, CellStatus.noref, CellStatus.noref)
          ∧ CellStatus.noref ≠ CellStatus.ok ∧ CellStatus.noref ≠ CellStatus.bad) := by
  have key2pair : ∀ ty : SlotType,
      uniqCount (subjSlots slots code) ty = pairCount (subjSlots slots code) ty := by
    intro ty
    unfold uniqCount pairCount
    apply dedup_map_len_eq
    intro a ha b hb
    have ha2 : a ∈ slots := (List.mem_filter.mp (List.mem_filter.mp ha).1).1
    have hb2 : b ∈ slots := (List.mem_filter.mp (List.mem_filter.mp hb).1).1
    exact slotKey_eq_iff a b (hpf a ha2).1 (hpf b hb2).1
  refine ⟨key2pair, ?_, ?_⟩
  · intro e he
    simp only [allOk, he, Bool.and_eq_true, decide_eq_true_eq]
    rw [key2pair SlotType.Lecture, key2pair SlotType.Tutorial, key2pair SlotType.Practical]
    simp [and_assoc]
  · intro he
    refine ⟨?_, by decide, by decide⟩
    simp [rowCellStatuses, he, checkCell]

/-- C3 witness: one lecture slot against a declared `1-0-0-0` structure passes
the cross-check. -/
theorem c3_crosscheck_witness : allOk c3slots "CS1" c3ltps = true :=
  ((c3_crosscheck c3slots "CS1" c3ltps (by decide)).2.1 ⟨1, 0, 0, 0⟩ (by decide)).mpr
    (by decide)

theorem facSections_default (pName : String) :
    ∀ (secs : List String) (pr : FacultyInfo),
      "default" ∉ secs.map facKey →
      lookupA (secs.foldl (facSecStep pName) pr) "default" = lookupA pr "default" := by
  intro secs
  induction secs with
  | nil => intro pr _; rfl
  | cons a t ih =>
    intro pr hk
    have hk1 : ¬ "default" = facKey a := fun h => hk (by
      rw [List.map_cons]
      exact h ▸ List.mem_cons_self _ _)
    have hk2 : "default" ∉ t.map facKey := fun h => hk (by
      rw [List.map_cons]
      exact List.mem_cons_of_mem _ h)
    simp only [List.foldl_cons]
    rw [ih (facSecStep pName pr a) hk2]
    simp only [facSecStep]
    rw [lookupA_insertA_ne _ _ _ _ (fun h => secPrefixNe _ h.symm)]
    simp only [facKey] at hk1
    rw [lookupA_insertA_ne _ _ _ _ hk1]

/-- C6 counterexample: the two-part faculty string `Alice (A), Bob` makes the
parenthesis-free part `Bob` the subject's default instructor, while the claim
says the default stays `Unknown` whenever there are two or more parts. -/
theorem c6_counterexample :
    (splitFaculty "Alice (A), Bob".data).length = 2
    ∧ facultyDefault "Alice (A), Bob" = "Bob"
    ∧ "Bob" ≠ "Unknown" := by
  refine ⟨by decide, by decide, by decide⟩

/-- C6 (amended): a parenthesis-free non-empty faculty part always becomes the
subject's default instructor, regardless of how many parts the string has
(later parts overwrite earlier ones, so the last such part wins); the
exactly-one-part restriction governs only parenthesized `Name (Sections)`
parts, which leave the default untouched when the string has two or more
parts. -/
theorem c6_faculty_default :
    (∀ (raw : String) (l : List (List Char)) (p : List Char),
      raw ≠ "" → toLowerStr raw ≠ "unknown" →
      splitFaculty raw.data = l ++ [p] →
      matchNameSec (trimS (ofChars p)).data = none →
      trimS (ofChars p) ≠ "" →
      facultyDefault raw = trimS (ofChars p))
    ∧ (∀ (total : Nat) (profs : FacultyInfo) (p : String) (nm secs : List Char),
      matchNameSec (trimS p).data = some (nm, secs) →
      total ≠ 1 →
      "default" ∉ ((splitCommaAmp secs).map fun s => facKey (trimS (ofChars s))) →
      lookupA (facStep total profs p) "default" = lookupA profs "default") := by
  constructor
  · intro raw l p hne hunk hsplit hm hp
    simp only [facultyDefault, buildFacultyInfo]
    rw [if_neg (not_or.mpr ⟨hne, hunk⟩)]
    rw [hsplit, List.map_append, List.foldl_append]
    simp only [List.map_cons, List.map_nil, List.foldl_cons, List.foldl_nil]
    simp only [facStep, hm]
    rw [if_pos hp, lookupA_insertA_self]
    rfl
  · intro total profs p nm secs hm htot hkeys
    simp only [facStep, hm]
    rw [if_neg htot]
    apply facSections_default
    intro hmem
    apply hkeys
    rw [List.map_map] at hmem
    simpa [Function.comp] using hmem

/-- C6 witness: the last, parenthesis-free part of a two-part faculty string
becomes the default instructor. -/
theorem c6_faculty_default_witness : facultyDefault "Meera (A), Rahul" = "Rahul" := by
  have h := c6_faculty_default.1 "Meera (A), Rahul" ["Meera (A)".data] " Rahul".data
    (by decide) (by decide) (by decide) (by decide) (by decide)
  exact h.trans (by decide)

/-- C1 counterexample: on the concrete grid (header times 08:50-09:50 /
09:50-10:50 / 11:00-12:00, one MON cell `CS101 (L) (LT-101) Sec A`) the single
extracted slot has room `TBA` and subject code `CS101   LT-101`, not the
claimed room `LT-101` and subject `CS101`: the room regex requires four digits
(`LT-101` has three) and the fallback room pattern is end-anchored but `Sec A`
follows, so the room text is never stripped from the subject. -/
theorem c1_counterexample :
    ((processExcelData c1rows []).map fun res => res.slots.map (·.room)) = some ["TBA"]
    ∧ ((processExcelData c1rows []).map fun res => res.slots.map (·.subjectCode))
        = some ["CS101   LT-101"]
    ∧ "TBA" ≠ "LT-101"
    ∧ "CS101   LT-101" ≠ "CS101" := by
  refine ⟨by decide, by decide, by decide, by decide⟩

/-- C1 (amended): that grid yields exactly one ExtractedSlot with day MON,
start 8:50 (the unpadded rendering of 08:50), end 9:50, type Lecture and
section `Sec A`, but with room `TBA` and subject code `CS101   LT-101` (the
unparsed room text stays inside the subject); the run produces exactly one
Parsed diagnostic and zero diagnostics of status Failed. -/
theorem c1_scenario :
    processExcelData c1rows [] =
      some ⟨[c1slot], [⟨3, "CS101 (L) (LT-101) Sec A", DebugStatus.Parsed, none⟩], []⟩
    ∧ ((processExcelData c1rows []).map fun res =>
        (res.debug.filter fun d => decide (d.status = DebugStatus.Failed)).length) = some 0 := by
  refine ⟨by decide, by decide⟩

/-- C5 counterexample: a grid cell containing only `LUNCH` produces zero
ExtractedSlots and zero DiagnosticRecords — not the claimed single record of
status `Skipped` (no such status exists; the grid loop `continue`s on
exact-ignore cells before any diagnostic is appended). -/
theorem c5_counterexample :
    ((processExcelData c5rows []).map fun res => res.debug.length) = some 0
    ∧ ((processExcelData c5rows []).map fun res => res.slots.length) = some 0
    ∧ (0 : Nat) ≠ 1 := by
  refine ⟨by decide, by decide, by decide⟩

/-- C5 (amended): a cell whose sanitized content is exactly `LUNCH` produces
zero ExtractedSlots and zero DiagnosticRecords; ignored-garbage lines are
silently dropped from the log (the diagnostic status type has only Parsed,
Info and Failed — a parser-skipped line whose uppercase form is in the ignore
list appends nothing, as the line-level run shows). -/
theorem c5_lunch_silent :
    processExcelData c5rows [] = some ⟨[], [], []⟩
    ∧ processLine [] [] [] [] "MON" 2 1 ⟨"8:50", "9:50"⟩ ([], []) "LUNCH".data = ([], []) := by
  refine ⟨by decide, by decide⟩
